import Mathlib

/-!
# Verification of the my-rss image-digger / ai-daily-recap services

Shallow embedding of the core logic of the repository's services:

* the flat-file feed cache (`getCache`, `getCacheForGuid`, `setCache` in
  `src/image-digger/src/index.ts`),
* the article scanner (extension filter, image download, largest-image
  selection loop),
* the feed transformer (sort by publication date descending, keep 10,
  fan out scans, `Promise.all` join),
* the HTTP route handlers (`/article` and the `feed` parameter guard of `/`),
* the retry-once-on-5xx logic of the `/dig/stream` endpoint of the
  ai-daily-recap service.

External effects (file system reads/writes, network fetches) are made
explicit parameters: a cache operation receives the parsed store content, a
scan receives the download results as a function from URL to probed image
dimensions, and so on.  Machine integers do not occur in the relevant code
paths (array indices and pixel sizes are plain JS numbers used well inside
the exact-integer range), so `Nat`/`Int` are used directly.
-/

namespace MyRss

/-! ## Feed cache (src/image-digger/src/index.ts, lines 16-74)

The backing store is a JSON array of flat records in a single file.  An
entry's `description` is `Option String` because the value written by
`setCache` comes from `item.description`, which may be absent
(`undefined`) on the TS side; the template later renders it with `?? ''`.
-/

/-- One record of the JSON array in `/tmp/rss-digger-cache.txt`. -/
structure CacheEntry where
  guid : String
  imageUrl : String
  description : Option String
  title : String
  deriving Repr, DecidableEq

/-- The in-memory store: the parsed JSON array. -/
abbrev CacheStore := List CacheEntry

/-- `getCache` : reads and JSON-parses the backing file.  The argument models
the outcome of `JSON.parse(fs.readFileSync(...))`: `some entries` on success,
`none` when parsing raises.  On failure the source returns a one-element
array holding a record whose fields are all empty strings. -/
def getCache (parsed : Option CacheStore) : CacheStore :=
  match parsed with
  | some entries => entries
  | none =>
    [{ guid := "", imageUrl := "", description := some "", title := "" }]

/-- Helper: the record literal pushed/stored by `setCache`. -/
def mkEntry (guid imageUrl title : String) (description : Option String) :
    CacheEntry :=
  { guid := guid, imageUrl := imageUrl, description := description,
    title := title }

/-- `getCacheForGuid(guid)` : `findIndex` on the store, returning the found
record or `null`.  The store argument is the result of the `getCache()`
call at the top of the source function. -/
def getCacheForGuid (store : CacheStore) (guid : String) : Option CacheEntry :=
  match store.findIdx? (fun c => c.guid == guid) with
  | some idx => store[idx]?
  | none => none

/-- `setCache(guid, imageUrl, title, description)` : `findIndex`, then either
in-place update (`cache[idx] = ...`) or `push`, mirroring the source.  The
store argument is the result of the internal `getCache()` call; the result is
what `JSON.stringify` then writes back. -/
def setCache (store : CacheStore) (guid imageUrl title : String)
    (description : Option String) : CacheStore :=
  match store.findIdx? (fun c => c.guid == guid) with
  | some idx => store.set idx (mkEntry guid imageUrl title description)
  | none => store ++ [mkEntry guid imageUrl title description]

/-- Unfolding `getCacheForGuid` on a cons cell: JS `findIndex` followed by
indexing is first-match lookup. -/
theorem getCacheForGuid_cons (a : CacheEntry) (s : CacheStore) (g : String) :
    getCacheForGuid (a :: s) g =
      if a.guid == g then some a else getCacheForGuid s g := by
  by_cases h : a.guid == g
  · simp [getCacheForGuid, List.findIdx?_cons, h]
  · simp only [getCacheForGuid, List.findIdx?_cons, h, if_false,
      Bool.false_eq_true]
    rw [List.findIdx?_succ]
    cases hfi : List.findIdx? (fun c => c.guid == g) s with
    | none => simp
    | some i => simp

/-- Unfolding `setCache` on the empty store: the new record is appended. -/
theorem setCache_nil (g u t : String) (d : Option String) :
    setCache [] g u t d = [mkEntry g u t d] :=
  rfl

/-- Unfolding `setCache` on a cons cell: first matching record is replaced in
place, otherwise recurse. -/
theorem setCache_cons (a : CacheEntry) (s : CacheStore) (g u t : String)
    (d : Option String) :
    setCache (a :: s) g u t d =
      if a.guid == g then mkEntry g u t d :: s
      else a :: setCache s g u t d := by
  by_cases h : a.guid == g
  · simp [setCache, List.findIdx?_cons, h]
  · simp only [setCache, List.findIdx?_cons, h, if_false, Bool.false_eq_true]
    rw [List.findIdx?_succ]
    cases hfi : List.findIdx? (fun c => c.guid == g) s with
    | none => simp
    | some i => simp

/-- `setCache` followed by `getCacheForGuid` at the same key finds exactly the
just-written record. -/
theorem getCacheForGuid_setCache (s : CacheStore) (g u t : String)
    (d : Option String) :
    getCacheForGuid (setCache s g u t d) g = some (mkEntry g u t d) := by
  induction s with
  | nil =>
    rw [setCache_nil, getCacheForGuid_cons]
    simp [mkEntry]
  | cons a s ih =>
    rw [setCache_cons]
    by_cases h : a.guid == g
    · rw [if_pos h, getCacheForGuid_cons]
      simp [mkEntry]
    · rw [if_neg h, getCacheForGuid_cons, if_neg h]
      exact ih

/-- `setCache` on a key already present keeps the store length. -/
theorem setCache_length_mem (s : CacheStore) (g u t : String)
    (d : Option String) (hmem : ∃ e ∈ s, e.guid = g) :
    (setCache s g u t d).length = s.length := by
  induction s with
  | nil => obtain ⟨e, he, _⟩ := hmem; cases he
  | cons a s ih =>
    rw [setCache_cons]
    by_cases h : a.guid == g
    · rw [if_pos h]; simp
    · rw [if_neg h]
      obtain ⟨e, he, heg⟩ := hmem
      rcases List.mem_cons.mp he with rfl | hes
      · exact absurd (by simp [heg]) h
      · simp [ih ⟨e, hes, heg⟩]

/-- `setCache` on a fresh key appends: the store length grows by one. -/
theorem setCache_length_new (s : CacheStore) (g u t : String)
    (d : Option String) (hfresh : ∀ e ∈ s, e.guid ≠ g) :
    (setCache s g u t d).length = s.length + 1 := by
  induction s with
  | nil => rw [setCache_nil]; rfl
  | cons a s ih =>
    rw [setCache_cons]
    by_cases h : a.guid == g
    · exact absurd (by simpa using h) (hfresh a (by simp))
    · rw [if_neg h]
      simp only [List.length_cons]
      rw [ih (fun e he => hfresh e (List.mem_cons_of_mem a he))]

/-- Claim C4 counterexample: on a corrupted store the load does NOT degrade to
the empty store.  It degrades to a one-record store whose record has the empty
guid, so looking up the empty-string id returns that placeholder record
instead of not-found, refuting "for every id, get(id) on a corrupted store
returns not-found". -/
theorem corruption_lookup_counterexample :
    ¬ (∀ id : String, getCacheForGuid (getCache none) id = none) := by
  intro h
  have h0 := h ""
  rw [show getCache none =
      [{ guid := "", imageUrl := "", description := some "", title := "" }]
    from rfl, getCacheForGuid_cons] at h0
  simp at h0

/-- Claim C4 (amended): a cache-file parse failure degrades without raising to
the fixed one-placeholder store (a single record with empty `guid`, empty
fields); for every non-empty id the lookup then returns not-found exactly as
on an empty store, while looking up the empty-string id returns the
placeholder record itself. -/
theorem corruption_degrades_to_placeholder_store :
    getCache none = [mkEntry "" "" "" (some "")]
    ∧ (∀ id : String, id ≠ "" →
        getCacheForGuid (getCache none) id = none)
    ∧ getCacheForGuid (getCache none) "" = some (mkEntry "" "" "" (some "")) := by
  refine ⟨rfl, ?_, by decide⟩
  intro id hid
  rw [show getCache none = [mkEntry "" "" "" (some "")] from rfl,
    getCacheForGuid_cons]
  have : (mkEntry "" "" "" (some "")).guid == id → False := by
    intro h
    exact hid (beq_iff_eq.mp h).symm
  simp only [getCacheForGuid]
  rw [if_neg this]
  rfl

/-- Claim C4 amended witness: instantiation at the concrete id `"x"`. -/
theorem corruption_degrades_to_placeholder_store_witness :
    getCacheForGuid (getCache none) "x" = none :=
  corruption_degrades_to_placeholder_store.2.1 "x" (by decide)

/-- Claim C5: upsert semantics of the cache.  `set` then `get` at the same id
returns the just-written entry; when the id was already present the store
length is unchanged (in-place update), otherwise it grows by one (append). -/
theorem set_then_get_upsert (s : CacheStore) (g u t : String)
    (d : Option String) :
    getCacheForGuid (setCache s g u t d) g = some (mkEntry g u t d)
    ∧ ((∃ e ∈ s, e.guid = g) → (setCache s g u t d).length = s.length)
    ∧ ((∀ e ∈ s, e.guid ≠ g) → (setCache s g u t d).length = s.length + 1) :=
  ⟨getCacheForGuid_setCache s g u t d,
   setCache_length_mem s g u t d,
   setCache_length_new s g u t d⟩

/-- Claim C5 witness: concrete update and concrete insertion. -/
theorem set_then_get_upsert_witness :
    (getCacheForGuid
        (setCache [mkEntry "a" "u0" "t0" none] "a" "u1" "t1" (some "d"))
        "a" = some (mkEntry "a" "u1" "t1" (some "d"))
      ∧ (setCache [mkEntry "a" "u0" "t0" none] "a" "u1" "t1" (some "d")).length
          = 1)
    ∧ (getCacheForGuid (setCache [mkEntry "a" "u0" "t0" none] "b" "u2" "t2"
          none) "b" = some (mkEntry "b" "u2" "t2" none)
      ∧ (setCache [mkEntry "a" "u0" "t0" none] "b" "u2" "t2" none).length
          = 2) :=
  ⟨⟨(set_then_get_upsert [mkEntry "a" "u0" "t0" none] "a" "u1" "t1"
        (some "d")).1,
    (set_then_get_upsert [mkEntry "a" "u0" "t0" none] "a" "u1" "t1"
        (some "d")).2.1 ⟨mkEntry "a" "u0" "t0" none, by decide, by decide⟩⟩,
   ⟨(set_then_get_upsert [mkEntry "a" "u0" "t0" none] "b" "u2" "t2" none).1,
    (set_then_get_upsert [mkEntry "a" "u0" "t0" none] "b" "u2" "t2"
        none).2.2 (by decide)⟩⟩

/-! ### Claim C7: guid uniqueness invariant -/

/-- One `setCache` call as recorded by a caller: the four arguments. -/
structure SetOp where
  guid : String
  imageUrl : String
  title : String
  description : Option String

/-- Replaying a sequence of `setCache` calls against a starting store.  The
process writes `JSON.stringify([])` to the cache file at startup, so the
starting store of interest is `[]`. -/
def applySetOps (ops : List SetOp) (store : CacheStore) : CacheStore :=
  ops.foldl (fun s op => setCache s op.guid op.imageUrl op.title
    op.description) store

/-- Every guid present after a `setCache` call was either already present or
is the guid just written. -/
theorem guid_mem_setCache {s : CacheStore} {g u t : String}
    {d : Option String} {x : String}
    (hx : x ∈ (setCache s g u t d).map CacheEntry.guid) :
    x = g ∨ x ∈ s.map CacheEntry.guid := by
  induction s with
  | nil =>
    rw [setCache_nil] at hx
    simp [mkEntry] at hx
    simp [hx]
  | cons a s ih =>
    rw [setCache_cons] at hx
    by_cases h : a.guid == g
    · rw [if_pos h] at hx
      rcases List.mem_map.mp hx with ⟨e, he, rfl⟩
      rcases List.mem_cons.mp he with rfl | hes
      · exact Or.inl rfl
      · exact Or.inr (by simp; exact Or.inr ⟨e, hes, rfl⟩)
    · rw [if_neg h] at hx
      rcases List.mem_map.mp hx with ⟨e, he, rfl⟩
      rcases List.mem_cons.mp he with rfl | hes
      · exact Or.inr (by simp)
      · rcases ih (List.mem_map.mpr ⟨e, hes, rfl⟩) with h1 | h1
        · exact Or.inl h1
        · exact Or.inr (by simp at h1 ⊢; exact Or.inr h1)

/-- `setCache` preserves distinctness of the stored guids. -/
theorem nodup_guid_setCache {s : CacheStore} (g u t : String)
    (d : Option String) (h : (s.map CacheEntry.guid).Nodup) :
    ((setCache s g u t d).map CacheEntry.guid).Nodup := by
  induction s with
  | nil =>
    rw [setCache_nil]
    simp
  | cons a s ih =>
    rw [List.map_cons, List.nodup_cons] at h
    rw [setCache_cons]
    by_cases hg : a.guid == g
    · rw [if_pos hg, List.map_cons, List.nodup_cons]
      refine ⟨?_, h.2⟩
      have : (mkEntry g u t d).guid = a.guid := by
        simp only [mkEntry]
        exact (beq_iff_eq.mp hg).symm
      rw [this]
      exact h.1
    · rw [if_neg hg, List.map_cons, List.nodup_cons]
      refine ⟨?_, ih h.2⟩
      intro hmem
      rcases guid_mem_setCache hmem with h1 | h1
      · exact hg (by simp [h1])
      · exact h.1 h1

/-- Claim C7: starting from the empty store written at process startup, after
any finite sequence of `setCache` calls the stored guids are pairwise
distinct: at most one entry per id. -/
theorem applySetOps_guid_nodup (ops : List SetOp) :
    ((applySetOps ops []).map CacheEntry.guid).Nodup := by
  suffices h : ∀ store : CacheStore, (store.map CacheEntry.guid).Nodup →
      ((applySetOps ops store).map CacheEntry.guid).Nodup from
    h [] (by simp)
  induction ops with
  | nil => intro store hs; exact hs
  | cons op ops ih =>
    intro store hs
    exact ih _ (nodup_guid_setCache _ _ _ _ hs)

/-! ## Article scanner: extension filter and largest-image selection
(src/image-digger/src/index.ts, lines 161-202)

A downloaded image blob is represented by the dimensions `imageSize` probes
from it (`width`, `height`); a placeholder candidate carries no blob.  The
network fetch of an allowed URL is a parameter `download : String → Nat × Nat`
(a fetch failure rejects the whole item and never reaches the selection loop,
so only successful downloads appear here).
-/

/-- One element of the `imgs` array: `{ url, blob }`, with `blob = none` for
the `{ url: "", blob: null }` placeholder. -/
structure ImgCandidate where
  url : String
  blob : Option (Nat × Nat)
  deriving Repr, DecidableEq

/-- `size.width * size.height` for a probed blob. -/
def imgArea (wh : Nat × Nat) : Nat := wh.1 * wh.2

/-- The running `biggest` record of the selection loop. -/
structure Biggest where
  size : Nat
  url : String
  deriving Repr, DecidableEq

/-- One iteration of the `for (const img of imgs)` loop: skip placeholders
(`if (!img.blob) continue`), replace the running best exactly when the
candidate's area is strictly greater. -/
def selectStep (best : Biggest) (img : ImgCandidate) : Biggest :=
  match img.blob with
  | none => best
  | some wh =>
    if best.size < imgArea wh then { size := imgArea wh, url := img.url }
    else best

/-- The whole selection loop, starting from `{ size: 0, url: "" }`. -/
def selectBiggest (imgs : List ImgCandidate) : Biggest :=
  imgs.foldl selectStep { size := 0, url := "" }

/-- Specification helper: the largest probed area among the candidates that
carry a blob (`0` when there is none). -/
def maxArea : List ImgCandidate → Nat
  | [] => 0
  | img :: rest =>
    match img.blob with
    | none => maxArea rest
    | some wh => max (imgArea wh) (maxArea rest)

theorem selectStep_none (b : Biggest) (img : ImgCandidate)
    (h : img.blob = none) : selectStep b img = b := by
  rw [selectStep, h]

theorem selectStep_some (b : Biggest) (img : ImgCandidate) (wh : Nat × Nat)
    (h : img.blob = some wh) :
    selectStep b img =
      if b.size < imgArea wh then { size := imgArea wh, url := img.url }
      else b := by
  rw [selectStep, h]

theorem maxArea_cons_none (a : ImgCandidate) (rest : List ImgCandidate)
    (h : a.blob = none) : maxArea (a :: rest) = maxArea rest := by
  rw [maxArea, h]

theorem maxArea_cons_some (a : ImgCandidate) (rest : List ImgCandidate)
    (wh : Nat × Nat) (h : a.blob = some wh) :
    maxArea (a :: rest) = max (imgArea wh) (maxArea rest) := by
  rw [maxArea, h]

theorem le_maxArea_of_mem {imgs : List ImgCandidate} {c : ImgCandidate}
    {wh : Nat × Nat} (hc : c ∈ imgs) (hwh : c.blob = some wh) :
    imgArea wh ≤ maxArea imgs := by
  induction imgs with
  | nil => cases hc
  | cons a rest ih =>
    rcases List.mem_cons.mp hc with rfl | hmem
    · rw [maxArea, hwh]
      exact le_max_left _ _
    · have h1 := ih hmem
      rw [maxArea]
      cases a.blob with
      | none => exact h1
      | some wh2 => exact le_trans h1 (le_max_right _ _)

/-- The selection loop never lowers the running best, and its final size is
the max of the initial size and the best area on offer. -/
theorem foldl_selectStep_size (imgs : List ImgCandidate) (b : Biggest) :
    (imgs.foldl selectStep b).size = max b.size (maxArea imgs) := by
  induction imgs generalizing b with
  | nil => simp [maxArea]
  | cons a rest ih =>
    rw [List.foldl_cons, ih]
    cases hb : a.blob with
    | none => rw [selectStep_none _ _ hb, maxArea_cons_none _ _ hb]
    | some wh =>
      rw [selectStep_some _ _ _ hb, maxArea_cons_some _ _ _ hb]
      by_cases h : b.size < imgArea wh
      · rw [if_pos h]
        dsimp only
        omega
      · rw [if_neg h]
        omega

/-- If no candidate beats the initial best, the loop returns it unchanged. -/
theorem foldl_selectStep_of_le (imgs : List ImgCandidate) (b : Biggest)
    (h : maxArea imgs ≤ b.size) : imgs.foldl selectStep b = b := by
  induction imgs generalizing b with
  | nil => rfl
  | cons a rest ih =>
    rw [List.foldl_cons]
    cases hb : a.blob with
    | none =>
      rw [maxArea_cons_none _ _ hb] at h
      rw [selectStep_none _ _ hb]
      exact ih b h
    | some wh =>
      rw [maxArea_cons_some _ _ _ hb] at h
      rw [selectStep_some _ _ _ hb, if_neg (by omega)]
      exact ih b (by omega)

/-- If some candidate beats the initial best, the loop returns the first
candidate (in input order) achieving the maximal area: every candidate
strictly before the winner has strictly smaller area. -/
theorem foldl_selectStep_of_lt (imgs : List ImgCandidate) (b : Biggest)
    (h : b.size < maxArea imgs) :
    ∃ pre c post wh,
      imgs = pre ++ c :: post
      ∧ c.blob = some wh
      ∧ imgArea wh = maxArea imgs
      ∧ (∀ d ∈ pre, ∀ wh2, d.blob = some wh2 → imgArea wh2 < maxArea imgs)
      ∧ imgs.foldl selectStep b = { size := maxArea imgs, url := c.url } := by
  induction imgs generalizing b with
  | nil => rw [maxArea] at h; omega
  | cons a rest ih =>
    cases hb : a.blob with
    | none =>
      rw [maxArea_cons_none _ _ hb] at h ⊢
      obtain ⟨pre, c, post, wh, hsplit, hcb, hcarea, hpre, hres⟩ := ih b h
      refine ⟨a :: pre, c, post, wh, by rw [hsplit, List.cons_append], hcb,
        hcarea, ?_, ?_⟩
      · intro d hd wh2 hd2
        rcases List.mem_cons.mp hd with rfl | hdp
        · rw [hb] at hd2; cases hd2
        · exact hpre d hdp wh2 hd2
      · rw [List.foldl_cons, selectStep_none _ _ hb]
        exact hres
    | some wh =>
      by_cases hle : maxArea rest ≤ imgArea wh
      · -- the head achieves the maximum, and is selected right away
        have harea : maxArea (a :: rest) = imgArea wh := by
          rw [maxArea_cons_some _ _ _ hb]; omega
        rw [harea] at h ⊢
        refine ⟨[], a, rest, wh, by simp, hb, rfl, by simp, ?_⟩
        rw [List.foldl_cons, selectStep_some _ _ _ hb, if_pos h]
        exact foldl_selectStep_of_le rest _ hle
      · -- the maximum lives strictly later in the list
        have harea : maxArea (a :: rest) = maxArea rest := by
          rw [maxArea_cons_some _ _ _ hb]; omega
        rw [harea] at h ⊢
        have hstep : (selectStep b a).size < maxArea rest := by
          rw [selectStep_some _ _ _ hb]
          by_cases hba : b.size < imgArea wh
          · rw [if_pos hba]; dsimp only; omega
          · rw [if_neg hba]; exact h
        obtain ⟨pre, c, post, wh2, hsplit, hcb, hcarea, hpre, hres⟩ :=
          ih (selectStep b a) hstep
        refine ⟨a :: pre, c, post, wh2, by rw [hsplit, List.cons_append], hcb,
          hcarea, ?_, ?_⟩
        · intro d hd wh3 hd3
          rcases List.mem_cons.mp hd with rfl | hdp
          · rw [hb] at hd3
            cases hd3
            omega
          · exact hpre d hdp wh3 hd3
        · rw [List.foldl_cons]
          exact hres

/-- Claim C2: whenever some candidate carries a blob of positive area, the
selection loop returns the first candidate (in input order) whose area is the
maximum over all blob-carrying candidates; a later candidate of equal area
never replaces it, and a placeholder (null blob) is never selected. -/
theorem selectBiggest_first_max (imgs : List ImgCandidate)
    (h : 0 < maxArea imgs) :
    ∃ pre c post wh,
      imgs = pre ++ c :: post
      ∧ c.blob = some wh
      ∧ imgArea wh = maxArea imgs
      ∧ (∀ d ∈ imgs, ∀ wh2, d.blob = some wh2 → imgArea wh2 ≤ imgArea wh)
      ∧ (∀ d ∈ pre, ∀ wh2, d.blob = some wh2 → imgArea wh2 < imgArea wh)
      ∧ selectBiggest imgs = { size := imgArea wh, url := c.url } := by
  obtain ⟨pre, c, post, wh, hsplit, hcb, hcarea, hpre, hres⟩ :=
    foldl_selectStep_of_lt imgs { size := 0, url := "" } h
  refine ⟨pre, c, post, wh, hsplit, hcb, hcarea, ?_, ?_, ?_⟩
  · intro d hd wh2 hd2
    rw [hcarea]
    exact le_maxArea_of_mem hd hd2
  · intro d hd wh2 hd2
    rw [hcarea]
    exact hpre d hd wh2 hd2
  · rw [selectBiggest, hres, hcarea]

/-- Direct evaluation on a tie: among areas 6, 12, placeholder, 12 the loop
returns the first area-12 candidate, confirming first-seen-wins concretely. -/
theorem selectBiggest_tie_eval :
    selectBiggest
        [⟨"small", some (2, 3)⟩, ⟨"first12", some (3, 4)⟩, ⟨"ph", none⟩,
          ⟨"second12", some (4, 3)⟩] = { size := 12, url := "first12" } := by
  decide

/-- Claim C2 witness: instantiation of the selection theorem at a concrete
candidate list with a tie on the maximal area and an interleaved
placeholder. -/
theorem selectBiggest_first_max_witness :
    0 < maxArea
        [⟨"small", some (2, 3)⟩, ⟨"first12", some (3, 4)⟩, ⟨"ph", none⟩,
          ⟨"second12", some (4, 3)⟩]
    ∧ ∃ pre c post wh,
      ([⟨"small", some (2, 3)⟩, ⟨"first12", some (3, 4)⟩, ⟨"ph", none⟩,
          ⟨"second12", some (4, 3)⟩] : List ImgCandidate)
          = pre ++ c :: post
      ∧ c.blob = some wh
      ∧ imgArea wh = maxArea
          [⟨"small", some (2, 3)⟩, ⟨"first12", some (3, 4)⟩, ⟨"ph", none⟩,
            ⟨"second12", some (4, 3)⟩]
      ∧ (∀ d ∈ ([⟨"small", some (2, 3)⟩, ⟨"first12", some (3, 4)⟩,
            ⟨"ph", none⟩, ⟨"second12", some (4, 3)⟩] : List ImgCandidate),
          ∀ wh2, d.blob = some wh2 → imgArea wh2 ≤ imgArea wh)
      ∧ (∀ d ∈ pre, ∀ wh2, d.blob = some wh2 → imgArea wh2 < imgArea wh)
      ∧ selectBiggest
          [⟨"small", some (2, 3)⟩, ⟨"first12", some (3, 4)⟩, ⟨"ph", none⟩,
            ⟨"second12", some (4, 3)⟩] = { size := imgArea wh, url := c.url } :=
  ⟨by decide,
   selectBiggest_first_max
     [⟨"small", some (2, 3)⟩, ⟨"first12", some (3, 4)⟩, ⟨"ph", none⟩,
       ⟨"second12", some (4, 3)⟩] (by decide)⟩

/-! ## Extension filter (src/image-digger/src/index.ts, lines 174-181)

The source tests each `src` attribute with the JS regex `/.(jpg|png)$/`.
The leading `.` is the regex wildcard (not an escaped dot): it matches any
single character except a line terminator.  So the test accepts exactly the
strings whose last four characters are `?jpg` or `?png` where `?` is any
non-line-terminator character.
-/

/-- JS regex `.` (without the `s` flag) excludes the four ECMAScript line
terminators. -/
def isLineTerminator (c : Char) : Bool :=
  c == '\n' || c == '\r' || c == '\u2028' || c == '\u2029'

/-- Exact semantics of `/.(jpg|png)$/.test(url)`: the match is anchored at
the end by `$`, consumes four characters, and its first character is the
wildcard. -/
def extRegexTest (url : List Char) : Bool :=
  match url.reverse with
  | 'g' :: 'p' :: 'j' :: c :: _ => !isLineTerminator c
  | 'g' :: 'n' :: 'p' :: c :: _ => !isLineTerminator c
  | _ => false

/-- The guard of the `elems.map` callback: a download (`fetch(imageUrl)`) is
attempted iff `imageUrl` is non-empty (truthy) and passes the regex test. -/
def downloadAttempted (src : String) : Bool :=
  !src.isEmpty && extRegexTest src.data

/-- The `elems.map` callback (lines 174-181): filtered-out candidates become
the `{ url: "", blob: null }` placeholder; allowed candidates are downloaded
and keep their URL.  `download` models `fetch(...).bytes()` followed by the
`imageSize` probe of the resulting blob. -/
def scanCandidate (download : String → Nat × Nat) (src : String) :
    ImgCandidate :=
  if src.isEmpty || !extRegexTest src.data then { url := "", blob := none }
  else { url := src, blob := some (download src) }

/-- Spec-side predicate of claim C3: the URL ends in the exact, case-sensitive
suffix `".jpg"` or `".png"`. -/
def endsInDotJpgOrDotPng (url : String) : Bool :=
  ['.', 'j', 'p', 'g'].isSuffixOf url.data
    || ['.', 'p', 'n', 'g'].isSuffixOf url.data

/-- Claim C3 counterexample: `"http://e.com/imagejpg"` does not end in
`".jpg"` or `".png"`, yet the unescaped wildcard in `/.(jpg|png)$/` accepts
it (the `.` matches `e`), so the scanner does attempt the download and stores
the URL with its blob instead of a placeholder. -/
theorem ext_filter_counterexample :
    endsInDotJpgOrDotPng "http://e.com/imagejpg" = false
    ∧ downloadAttempted "http://e.com/imagejpg" = true
    ∧ scanCandidate (fun _ => (10, 20)) "http://e.com/imagejpg"
        = { url := "http://e.com/imagejpg", blob := some (10, 20) } := by
  refine ⟨by decide, by decide, ?_⟩
  rw [scanCandidate, if_neg]
  decide

/-- Claim C3 (amended): for every candidate `src` URL rejected by the code's
actual test `/.(jpg|png)$/` — i.e. whose last four characters are not `jpg`
or `png` preceded by one non-line-terminator character; this is weaker than
"ends in `.jpg` or `.png`" because the dot in the regex is an unescaped
wildcard — no download is attempted, the candidate is mapped to the
`{ url: "", blob: null }` placeholder at the same list position, and that
placeholder never changes the selection loop's running best. -/
theorem ext_filter_rejects (download : String → Nat × Nat) (src : String)
    (h : extRegexTest src.data = false) :
    downloadAttempted src = false
    ∧ scanCandidate download src = { url := "", blob := none }
    ∧ (∀ best : Biggest,
        selectStep best (scanCandidate download src) = best)
    ∧ (∀ srcs : List String, ∀ i : Nat,
        (srcs.map (scanCandidate download)).length = srcs.length
        ∧ (srcs.map (scanCandidate download))[i]? =
            (srcs[i]?).map (scanCandidate download)) := by
  have hplaceholder : scanCandidate download src = { url := "", blob := none }
      := by
    rw [scanCandidate]
    by_cases he : src.isEmpty
    · rw [if_pos (by rw [he]; rfl)]
    · rw [if_pos]
      rw [h]
      rw [Bool.not_false, Bool.or_true]
  refine ⟨?_, hplaceholder, ?_, ?_⟩
  · rw [downloadAttempted, h, Bool.and_false]
  · intro best
    rw [hplaceholder]
    exact selectStep_none _ _ rfl
  · intro srcs i
    exact ⟨List.length_map _ _, List.getElem?_map _ _ _⟩

/-- Claim C3 amended witness: the URL `"page.html"` fails the regex, is not
downloaded, and becomes a position-preserving placeholder. -/
theorem ext_filter_rejects_witness :
    extRegexTest "page.html".data = false
    ∧ downloadAttempted "page.html" = false
    ∧ scanCandidate (fun _ => (10, 20)) "page.html"
        = { url := "", blob := none } := by
  refine ⟨by decide, ?_, ?_⟩
  · exact (ext_filter_rejects (fun _ => (10, 20)) "page.html" (by decide)).1
  · exact (ext_filter_rejects (fun _ => (10, 20)) "page.html" (by decide)).2.1

/-! ## Feed transformer: sort and truncate
(src/image-digger/src/index.ts, lines 146-150)

The handler sorts `inFeed.items` with the comparator
`(a, b) => Date.parse(b.pubDate) - Date.parse(a.pubDate)` and keeps the first
10.  `Array.prototype.sort` is a stable comparison sort; it is embedded as
`List.insertionSort` over the relation "`a` may come before `b`", i.e.
`Date.parse(b.pubDate) ≤ Date.parse(a.pubDate)`.  `Date.parse` on the
parseable dates of interest is an arbitrary function `pd : String → Int`
(milliseconds since the epoch). -/

/-- One item of the parsed incoming feed, with the fields the handler
reads. -/
structure FeedItem where
  title : String
  link : String
  pubDate : String
  guid : String
  description : Option String
  deriving Repr, DecidableEq

/-- The sort comparator, as a relation: `a` may be placed before `b` exactly
when the comparator value `Date.parse(b.pubDate) - Date.parse(a.pubDate)` is
`≤ 0`. -/
def itemDateLe (pd : String → Int) (a b : FeedItem) : Prop :=
  pd b.pubDate ≤ pd a.pubDate

instance (pd : String → Int) : DecidableRel (itemDateLe pd) :=
  fun a b => inferInstanceAs (Decidable (pd b.pubDate ≤ pd a.pubDate))

instance (pd : String → Int) : IsTotal FeedItem (itemDateLe pd) :=
  ⟨fun a b => le_total (pd b.pubDate) (pd a.pubDate)⟩

instance (pd : String → Int) : IsTrans FeedItem (itemDateLe pd) :=
  ⟨fun _ _ _ hab hbc => le_trans hbc hab⟩

/-- `inFeed.items.sort(comparator)`. -/
def sortItems (pd : String → Int) (items : List FeedItem) : List FeedItem :=
  List.insertionSort (itemDateLe pd) items

/-- `inFeed.items = inFeed.items.slice(0, 10)` after the sort: the retained
items, in processing order. -/
def retainItems (pd : String → Int) (items : List FeedItem) : List FeedItem :=
  (sortItems pd items).take 10

/-- With pairwise-distinct parsed dates the sorted list is strictly
descending. -/
theorem sortItems_pairwise_strict (pd : String → Int) {l : List FeedItem}
    (hnd : (l.map (fun i => pd i.pubDate)).Nodup) :
    List.Pairwise (fun a b => pd b.pubDate < pd a.pubDate)
      (sortItems pd l) := by
  have hsorted : List.Sorted (itemDateLe pd) (sortItems pd l) :=
    List.sorted_insertionSort _ l
  have hperm : (sortItems pd l).Perm l := List.perm_insertionSort _ l
  have hnd2 : ((sortItems pd l).map (fun i => pd i.pubDate)).Nodup :=
    ((hperm.map _).nodup_iff).mpr hnd
  have hpw_ne : List.Pairwise
      (fun a b : FeedItem => pd a.pubDate ≠ pd b.pubDate) (sortItems pd l) :=
    List.pairwise_map.mp hnd2
  exact (List.Pairwise.and hsorted hpw_ne).imp
    (fun h => lt_of_le_of_ne h.1 (Ne.symm h.2))

/-- With pairwise-distinct parsed dates the sorted list is independent of the
input order: any two permutations of the same items sort identically. -/
theorem sortItems_perm_invariant (pd : String → Int) {l₁ l₂ : List FeedItem}
    (hperm : l₁.Perm l₂)
    (hnd : (l₁.map (fun i => pd i.pubDate)).Nodup) :
    sortItems pd l₁ = sortItems pd l₂ := by
  have hnd₂ : (l₂.map (fun i => pd i.pubDate)).Nodup :=
    ((hperm.map _).nodup_iff).mp hnd
  have hp : (sortItems pd l₁).Perm (sortItems pd l₂) :=
    (List.perm_insertionSort _ l₁).trans
      (hperm.trans (List.perm_insertionSort _ l₂).symm)
  haveI : IsAntisymm FeedItem (fun a b => pd b.pubDate < pd a.pubDate) :=
    ⟨fun _ _ h1 h2 => absurd h2 (not_lt_of_gt h1)⟩
  exact List.eq_of_perm_of_sorted hp
    (sortItems_pairwise_strict pd hnd) (sortItems_pairwise_strict pd hnd₂)

/-- Claim C6: when every item of the source feed has a distinct (parseable)
publication date, the transformer retains exactly the `min 10 n` most recent
items by date, independently of the order the items arrived in: the retained
list is the same for any permutation of the input, its members come from the
input, its length is `min 10 n`, and every retained item is strictly more
recent than every non-retained input item. -/
theorem retain_ten_most_recent (pd : String → Int) (l₁ l₂ : List FeedItem)
    (hperm : l₁.Perm l₂)
    (hnd : (l₁.map (fun i => pd i.pubDate)).Nodup) :
    retainItems pd l₁ = retainItems pd l₂
    ∧ (retainItems pd l₁).length = min 10 l₁.length
    ∧ (∀ x ∈ retainItems pd l₁, x ∈ l₁)
    ∧ (∀ x ∈ retainItems pd l₁, ∀ y ∈ l₁, y ∉ retainItems pd l₁ →
        pd y.pubDate < pd x.pubDate) := by
  refine ⟨by rw [retainItems, retainItems, sortItems_perm_invariant pd hperm
    hnd], ?_, ?_, ?_⟩
  · rw [retainItems, List.length_take,
      show (sortItems pd l₁).length = l₁.length from
        (List.perm_insertionSort _ l₁).length_eq]
  · intro x hx
    exact (List.perm_insertionSort _ l₁).mem_iff.mp
      (List.mem_of_mem_take hx)
  · intro x hx y hy hyn
    have hsplit : sortItems pd l₁ =
        (sortItems pd l₁).take 10 ++ (sortItems pd l₁).drop 10 :=
      (List.take_append_drop 10 (sortItems pd l₁)).symm
    have hpw := sortItems_pairwise_strict pd hnd
    rw [hsplit, List.pairwise_append] at hpw
    have hymem : y ∈ sortItems pd l₁ :=
      (List.perm_insertionSort _ l₁).mem_iff.mpr hy
    have hydrop : y ∈ (sortItems pd l₁).drop 10 := by
      rw [hsplit] at hymem
      rcases List.mem_append.mp hymem with h1 | h1
      · exact absurd h1 hyn
      · exact h1
    exact hpw.2.2 x hx y hydrop

/-- Fixture: `Date.parse` stand-in giving the items below distinct dates. -/
def pdW : String → Int := fun s => (s.length : Int)

/-- Fixture items with pairwise-distinct `pdW`-dates. -/
def itemA : FeedItem :=
  { title := "A", link := "http://s/a", pubDate := "d1", guid := "ga",
    description := none }

def itemB : FeedItem :=
  { title := "B", link := "http://s/b", pubDate := "d22", guid := "gb",
    description := some "db" }

def itemC : FeedItem :=
  { title := "C", link := "http://s/c", pubDate := "d333", guid := "gc",
    description := none }

/-- Claim C6 witness: instantiation at a concrete 3-item feed and a
permutation of it. -/
theorem retain_ten_most_recent_witness :
    retainItems pdW [itemA, itemB, itemC] = retainItems pdW [itemC, itemA, itemB]
    ∧ (retainItems pdW [itemA, itemB, itemC]).length
        = min 10 ([itemA, itemB, itemC] : List FeedItem).length
    ∧ (∀ x ∈ retainItems pdW [itemA, itemB, itemC], x ∈ [itemA, itemB, itemC])
    ∧ (∀ x ∈ retainItems pdW [itemA, itemB, itemC],
        ∀ y ∈ [itemA, itemB, itemC], y ∉ retainItems pdW [itemA, itemB, itemC] →
          pdW y.pubDate < pdW x.pubDate) :=
  retain_ten_most_recent pdW [itemA, itemB, itemC] [itemC, itemA, itemB]
    (by decide) (by decide)

/-! ## Feed transformer: fan-out and join
(src/image-digger/src/index.ts, lines 152-224)

For each retained item the handler builds a promise that scans the article
page (fetch, parse, extract `img[src]`, filter, download, select) and either
resolves with the data of one output feed entry or rejects.  Each promise is
chained with `p.then(res => outFeed.item(res))` — with no rejection handler —
and the handler ends with `await Promise.all(proms); return new
Response(outFeed.xml())`.

`scanArticle` gives the settlement of one item's promise; its `srcs` argument
is the list of `src` attributes of the `img[src]` elements of the fetched
page, `download` the fetch+probe of an image URL, `encode` the
`encodeURIComponent` builtin, `host` the `HOST` env var. -/

/-- The object a successful item promise resolves with (lines 206-213),
which `outFeed.item(...)` turns into one output feed entry. -/
structure ScanOk where
  title : String
  description : Option String
  url : String
  guid : String
  enclosureUrl : String
  date : String
  deriving Repr, DecidableEq

/-- One item's article scan (lines 160-214).  The promise is rejected when
the page has no `img[src]` element (`elems.length === 0`) and when no
candidate had positive area (`biggest.size === 0`); otherwise it resolves
with the entry data.  (On success the source also upserts the cache via
`setCache`; that store transition is `setCache` above.) -/
def scanArticle (host : String) (encode : String → String)
    (download : String → Nat × Nat) (srcs : List String) (item : FeedItem) :
    Option ScanOk :=
  let imgs := srcs.map (scanCandidate download)
  let biggest := selectBiggest imgs
  if srcs.isEmpty then none
  else if biggest.size = 0 then none
  else some
    { title := item.title
      description := item.description
      url := host ++ ":8033/article?guid=" ++ encode item.guid
      guid := item.guid
      enclosureUrl := biggest.url
      date := item.pubDate }

/-- `Promise.all` over one promise per list element: all fulfilled gives the
list of results, any rejection rejects the join. -/
def collectAll {α β : Type} (f : α → Option β) : List α → Option (List β)
  | [] => some []
  | a :: rest =>
    match f a, collectAll f rest with
    | some b, some bs => some (b :: bs)
    | _, _ => none

/-- The `"/"` handler after the feed has been fetched and parsed: retain the
10 most recent items, scan them all, `await Promise.all`.  `Except.error ()`
is the rejected join (the handler's `await` throws and the request fails with
a server error); `Except.ok entries` is the serialized output feed with one
entry per retained item. -/
def runFeedRequest (pd : String → Int) (scan : FeedItem → Option ScanOk)
    (items : List FeedItem) : Except Unit (List ScanOk) :=
  match collectAll scan (retainItems pd items) with
  | some entries => Except.ok entries
  | none => Except.error ()

theorem collectAll_eq_none_iff {α β : Type} (f : α → Option β) (l : List α) :
    collectAll f l = none ↔ ∃ a ∈ l, f a = none := by
  induction l with
  | nil => simp [collectAll]
  | cons a rest ih =>
    rw [collectAll]
    cases hfa : f a with
    | none =>
      simp only [List.mem_cons]
      constructor
      · intro _
        exact ⟨a, Or.inl rfl, hfa⟩
      · intro _
        trivial
    | some b =>
      cases hrest : collectAll f rest with
      | none =>
        simp only [List.mem_cons]
        constructor
        · intro _
          obtain ⟨x, hx, hfx⟩ := ih.mp hrest
          exact ⟨x, Or.inr hx, hfx⟩
        · intro _
          trivial
      | some bs =>
        simp only [List.mem_cons]
        constructor
        · intro h
          cases h
        · rintro ⟨x, hx | hx, hfx⟩
          · rw [hx] at hfx
            rw [hfx] at hfa
            cases hfa
          · exact absurd (ih.mpr ⟨x, hx, hfx⟩) (by rw [hrest]; simp)

theorem collectAll_length {α β : Type} (f : α → Option β) (l : List α)
    (out : List β) (h : collectAll f l = some out) :
    out.length = l.length := by
  induction l generalizing out with
  | nil => rw [collectAll] at h; cases h; rfl
  | cons a rest ih =>
    rw [collectAll] at h
    cases hfa : f a with
    | none => rw [hfa] at h; cases h
    | some b =>
      rw [hfa] at h
      cases hrest : collectAll f rest with
      | none => rw [hrest] at h; cases h
      | some bs =>
        rw [hrest] at h
        cases h
        simp [ih bs hrest]

theorem collectAll_getElem {α β : Type} (f : α → Option β) (l : List α)
    (out : List β) (h : collectAll f l = some out) (k : Nat) :
    out[k]? = (l[k]?).bind f := by
  induction l generalizing out k with
  | nil => rw [collectAll] at h; cases h; simp
  | cons a rest ih =>
    rw [collectAll] at h
    cases hfa : f a with
    | none => rw [hfa] at h; cases h
    | some b =>
      rw [hfa] at h
      cases hrest : collectAll f rest with
      | none => rw [hrest] at h; cases h
      | some bs =>
        rw [hrest] at h
        cases h
        cases k with
        | zero => simp [hfa]
        | succ k => simp [ih bs hrest k]

/-- Fixture scan: item `gb`'s article page has zero `img[src]` elements, so
its scan fails with the "no candidates" outcome; the other pages carry one
`.jpg` image that downloads and probes fine. -/
def scanW : FeedItem → Option ScanOk := fun i =>
  scanArticle "http://h" (fun s => s) (fun _ => (10, 20))
    (if i.guid == "gb" then [] else ["http://x/a.jpg"]) i

/-- Claim C1 counterexample: with the 3-item feed above, exactly one retained
item's scan fails ("no candidates"), yet the `GET /?feed=` request does not
succeed with the other two entries: the `Promise.all` join rejects (no
rejection handler is attached to the per-item promises), so the whole request
fails and no output feed is serialized. -/
theorem feed_item_failure_counterexample :
    (retainItems pdW [itemA, itemB, itemC]).length = 3
    ∧ ((retainItems pdW [itemA, itemB, itemC]).countP
        (fun i => (scanW i).isNone) = 1)
    ∧ runFeedRequest pdW scanW [itemA, itemB, itemC] = Except.error () := by
  refine ⟨by decide, by decide, rfl⟩

/-- Claim C1 (amended): item-scan failures are NOT swallowed.  If at least
one retained item's scan fails, the whole request fails (the unhandled
rejection propagates through `Promise.all` and the handler throws); only when
every retained item's scan succeeds does the request succeed, and then the
output feed has exactly one entry per retained item, in order. -/
theorem feed_item_failure_propagates (pd : String → Int)
    (scan : FeedItem → Option ScanOk) (items : List FeedItem) :
    ((∃ i ∈ retainItems pd items, scan i = none) →
        runFeedRequest pd scan items = Except.error ())
    ∧ ((∀ i ∈ retainItems pd items, (scan i).isSome) →
        ∃ entries, runFeedRequest pd scan items = Except.ok entries
          ∧ entries.length = (retainItems pd items).length
          ∧ ∀ k : Nat, entries[k]? = ((retainItems pd items)[k]?).bind scan) := by
  constructor
  · intro h
    rw [runFeedRequest]
    rw [show collectAll scan (retainItems pd items) = none from
      (collectAll_eq_none_iff scan _).mpr h]
  · intro h
    cases hc : collectAll scan (retainItems pd items) with
    | none =>
      obtain ⟨i, hi, hfi⟩ := (collectAll_eq_none_iff scan _).mp hc
      have hsome := h i hi
      rw [hfi] at hsome
      cases hsome
    | some entries =>
      refine ⟨entries, ?_, collectAll_length _ _ _ hc,
        collectAll_getElem _ _ _ hc⟩
      rw [runFeedRequest, hc]

/-- Fixture scan where every page has a usable image. -/
def scanAllOkW : FeedItem → Option ScanOk := fun i =>
  scanArticle "http://h" (fun s => s) (fun _ => (10, 20))
    ["http://x/a.jpg"] i

/-- Claim C1 amended witness: the failure branch at the mixed fixture and the
success branch at the all-good fixture. -/
theorem feed_item_failure_propagates_witness :
    runFeedRequest pdW scanW [itemA, itemB, itemC] = Except.error ()
    ∧ ∃ entries, runFeedRequest pdW scanAllOkW [itemA, itemB, itemC]
        = Except.ok entries
      ∧ entries.length = (retainItems pdW [itemA, itemB, itemC]).length
      ∧ ∀ k : Nat, entries[k]?
          = ((retainItems pdW [itemA, itemB, itemC])[k]?).bind scanAllOkW :=
  ⟨(feed_item_failure_propagates pdW scanW [itemA, itemB, itemC]).1
      ⟨itemB, by decide, by decide⟩,
   (feed_item_failure_propagates pdW scanAllOkW [itemA, itemB, itemC]).2
      (by decide)⟩

/-! ## HTTP surface (src/image-digger/src/index.ts, lines 89-131)

A response is modeled by its status, its `content-type` header (when the
handler sets one), its body, and whether `withCors` added the permissive
`Access-Control-Allow-Origin: *` header. -/

structure HttpResponse where
  status : Nat
  contentType : Option String
  body : String
  corsAllowAll : Bool
  deriving Repr, DecidableEq

/-- The four fixed pieces of the `/article` HTML template literal (lines
106-119); the cached `title`, `imageUrl` and `description` are interpolated
between them with no escaping. -/
def htmlA : String := "\n        <html>\n          <head>\n            <title>"

def htmlB : String :=
  "</title>\n            <meta name=\"viewport\" content=\"width=device-width, initial-scale=1.0\">\n          </head>\n          <body>\n          <div style=\"display: flex; flex-direction: column; align-items: center; justify-content: center; height: 100vh; width: 100vw;\">\n            <img src=\""

def htmlC : String :=
  "\" style=\"max-width: 100%; max-height: 100%;\">\n            <p>"

def htmlD : String :=
  "</p>\n          </div>\n          </body>\n        </html>\n      "

/-- The `/article` page body: the template with the cached fields spliced in
verbatim (`${cache.title}`, `${cache.imageUrl}`, `${cache.description ?? ''}`). -/
def articleHtml (e : CacheEntry) : String :=
  htmlA ++ e.title ++ htmlB ++ e.imageUrl ++ htmlC
    ++ e.description.getD "" ++ htmlD

/-- `new Response("No image specified", { status: 400 })`. -/
def noImageSpecified : HttpResponse :=
  { status := 400, contentType := none, body := "No image specified",
    corsAllowAll := false }

/-- `new Response("No image found", { status: 404 })`. -/
def noImageFound : HttpResponse :=
  { status := 404, contentType := none, body := "No image found",
    corsAllowAll := false }

/-- The 200 `/article` response: the HTML page with `content-type: text/html`
and, via `withCors`, the permissive cross-origin header. -/
def articleFound (e : CacheEntry) : HttpResponse :=
  { status := 200, contentType := some "text/html", body := articleHtml e,
    corsAllowAll := true }

/-- The `/article` route handler (lines 92-124).  `guidParam` is
`url.searchParams.get("guid")` (`none` when the parameter is absent); the JS
guard `if (!guid)` also catches the empty string.  The store argument is the
parsed cache file that `getCacheForGuid` reads. -/
def articleHandler (store : CacheStore) (guidParam : Option String) :
    HttpResponse :=
  match guidParam with
  | none => noImageSpecified
  | some g =>
    if g.isEmpty then noImageSpecified
    else
      match getCacheForGuid store g with
      | none => noImageFound
      | some e => articleFound e

/-- `new Response("No feed specified", { status: 400 })`. -/
def noFeedSpecified : HttpResponse :=
  { status := 400, contentType := none, body := "No feed specified",
    corsAllowAll := false }

/-- The `feed` query-parameter guard at the top of the `/` handler (lines
126-131): `some response` when the guard short-circuits with 400, `none` when
the handler proceeds to fetch the feed. -/
def feedParamGuard (feedParam : Option String) : Option HttpResponse :=
  match feedParam with
  | none => some noFeedSpecified
  | some f => if f.isEmpty then some noFeedSpecified else none

/-- `sub` occurs as a contiguous substring of `s`. -/
def strContains (s sub : String) : Prop :=
  ∃ pre post, s = pre ++ (sub ++ post)

theorem strContains_intro (s pre sub post : String)
    (h : s = pre ++ (sub ++ post)) : strContains s sub :=
  ⟨pre, post, h⟩

theorem articleHtml_contains_title (e : CacheEntry) :
    strContains (articleHtml e) e.title :=
  strContains_intro _ htmlA e.title
    (htmlB ++ (e.imageUrl ++ (htmlC ++ (e.description.getD "" ++ htmlD))))
    (by rw [articleHtml]; simp [String.append_assoc])

theorem articleHtml_contains_imageUrl (e : CacheEntry) :
    strContains (articleHtml e) e.imageUrl :=
  strContains_intro _ (htmlA ++ (e.title ++ htmlB)) e.imageUrl
    (htmlC ++ (e.description.getD "" ++ htmlD))
    (by rw [articleHtml]; simp [String.append_assoc])

theorem articleHtml_contains_description (e : CacheEntry) :
    strContains (articleHtml e) (e.description.getD "") :=
  strContains_intro _ (htmlA ++ (e.title ++ (htmlB ++ (e.imageUrl ++ htmlC))))
    (e.description.getD "") htmlD
    (by rw [articleHtml]; simp [String.append_assoc])

/-- Unfolding the `/article` handler on a non-empty guid that misses the
cache. -/
theorem articleHandler_miss (store : CacheStore) (g : String)
    (hg : ¬ (g.isEmpty = true)) (hnone : getCacheForGuid store g = none) :
    articleHandler store (some g) = noImageFound := by
  have hdef : articleHandler store (some g) =
      (if g.isEmpty then noImageSpecified
        else
          match getCacheForGuid store g with
          | none => noImageFound
          | some e => articleFound e) := rfl
  rw [hdef, if_neg hg, hnone]

/-- Unfolding the `/article` handler on a non-empty guid that hits the
cache. -/
theorem articleHandler_hit (store : CacheStore) (g : String) (e : CacheEntry)
    (hg : ¬ (g.isEmpty = true)) (hsome : getCacheForGuid store g = some e) :
    articleHandler store (some g) = articleFound e := by
  have hdef : articleHandler store (some g) =
      (if g.isEmpty then noImageSpecified
        else
          match getCacheForGuid store g with
          | none => noImageFound
          | some e2 => articleFound e2) := rfl
  rw [hdef, if_neg hg, hsome]

theorem not_isEmpty_of_ne {g : String} (hg : g ≠ "") : ¬ (g.isEmpty = true) :=
  fun hg1 => hg ((String.isEmpty_iff g).mp hg1)

/-- Claim C8: the endpoint status/body scenarios.  A missing or empty `feed`
parameter yields 400 with a body mentioning "feed"; a missing or empty `guid`
on `/article` yields 400; an unknown (non-empty) guid yields 404; a cached
guid yields a 200 `text/html` page whose body contains the cached image URL
and the cached title. -/
theorem endpoint_scenarios (store : CacheStore) (g : String) (e : CacheEntry) :
    ((feedParamGuard none).map HttpResponse.status = some 400
      ∧ ∀ r, feedParamGuard none = some r → strContains r.body "feed")
    ∧ ((feedParamGuard (some "")).map HttpResponse.status = some 400
      ∧ ∀ r, feedParamGuard (some "") = some r → strContains r.body "feed")
    ∧ (articleHandler store none).status = 400
    ∧ (articleHandler store (some "")).status = 400
    ∧ (g ≠ "" → getCacheForGuid store g = none →
        (articleHandler store (some g)).status = 404)
    ∧ (g ≠ "" → getCacheForGuid store g = some e →
        (articleHandler store (some g)).status = 200
        ∧ (articleHandler store (some g)).contentType = some "text/html"
        ∧ strContains (articleHandler store (some g)).body e.imageUrl
        ∧ strContains (articleHandler store (some g)).body e.title) := by
  have hfeed : strContains "No feed specified" "feed" :=
    strContains_intro _ "No " "feed" " specified" (by decide)
  refine ⟨⟨rfl, ?_⟩, ⟨rfl, ?_⟩, rfl, rfl, ?_, ?_⟩
  · intro r hr
    cases hr
    exact hfeed
  · intro r hr
    cases hr
    exact hfeed
  · intro hg hnone
    rw [articleHandler_miss store g (not_isEmpty_of_ne hg) hnone]
    rfl
  · intro hg hsome
    rw [articleHandler_hit store g e (not_isEmpty_of_ne hg) hsome]
    exact ⟨rfl, rfl, articleHtml_contains_imageUrl e,
      articleHtml_contains_title e⟩

/-- Claim C8 witness: concrete scenarios — missing and empty parameters, an
unknown guid, and a cache hit previously written with title `"T"` and image
`"http://x/i.png"`. -/
theorem endpoint_scenarios_witness :
    ("id1" : String) ≠ ""
    ∧ getCacheForGuid [mkEntry "id1" "http://x/i.png" "T" none] "id1"
        = some (mkEntry "id1" "http://x/i.png" "T" none)
    ∧ ("nope" : String) ≠ ""
    ∧ getCacheForGuid [mkEntry "id1" "http://x/i.png" "T" none] "nope" = none
    ∧ (articleHandler [mkEntry "id1" "http://x/i.png" "T" none]
        (some "nope")).status = 404
    ∧ (articleHandler [mkEntry "id1" "http://x/i.png" "T" none]
        (some "id1")).status = 200
    ∧ (articleHandler [mkEntry "id1" "http://x/i.png" "T" none]
        (some "id1")).contentType = some "text/html"
    ∧ strContains (articleHandler [mkEntry "id1" "http://x/i.png" "T" none]
        (some "id1")).body (mkEntry "id1" "http://x/i.png" "T" none).imageUrl
    ∧ strContains (articleHandler [mkEntry "id1" "http://x/i.png" "T" none]
        (some "id1")).body (mkEntry "id1" "http://x/i.png" "T" none).title := by
  have h404 := (endpoint_scenarios [mkEntry "id1" "http://x/i.png" "T" none]
    "nope" (mkEntry "id1" "http://x/i.png" "T" none)).2.2.2.2.1
    (by decide) (by decide)
  have h200 := (endpoint_scenarios [mkEntry "id1" "http://x/i.png" "T" none]
    "id1" (mkEntry "id1" "http://x/i.png" "T" none)).2.2.2.2.2
    (by decide) (by decide)
  exact ⟨by decide, by decide, by decide, by decide, h404, h200.1, h200.2.1,
    h200.2.2.1, h200.2.2.2⟩

/-- Claim C10: the 200 response for a cached guid embeds the cached `title`,
`imageUrl` and `description` (empty string when the description is absent)
into the page character-for-character, with no HTML escaping: the body is
literally the fixed template pieces concatenated with the raw field values,
so markup inside a cached field appears verbatim in the served page. -/
theorem article_page_embeds_fields_verbatim (store : CacheStore) (g : String)
    (e : CacheEntry) (hg : g ≠ "") (hsome : getCacheForGuid store g = some e) :
    (articleHandler store (some g)).status = 200
    ∧ (articleHandler store (some g)).body
        = htmlA ++ e.title ++ htmlB ++ e.imageUrl ++ htmlC
            ++ e.description.getD "" ++ htmlD
    ∧ strContains (articleHandler store (some g)).body e.title
    ∧ strContains (articleHandler store (some g)).body e.imageUrl
    ∧ strContains (articleHandler store (some g)).body
        (e.description.getD "") := by
  rw [articleHandler_hit store g e (not_isEmpty_of_ne hg) hsome]
  exact ⟨rfl, rfl, articleHtml_contains_title e,
    articleHtml_contains_imageUrl e, articleHtml_contains_description e⟩

/-- Claim C10 witness: a cached title and description carrying HTML markup
are served verbatim (no escaping) in the page for their guid. -/
theorem article_page_embeds_fields_verbatim_witness :
    (articleHandler [mkEntry "id2" "http://x/i.png" "<b>T</b>"
        (some "<script>alert(1)</script>")] (some "id2")).status = 200
    ∧ strContains (articleHandler [mkEntry "id2" "http://x/i.png" "<b>T</b>"
        (some "<script>alert(1)</script>")] (some "id2")).body "<b>T</b>"
    ∧ strContains (articleHandler [mkEntry "id2" "http://x/i.png" "<b>T</b>"
        (some "<script>alert(1)</script>")] (some "id2")).body
        "<script>alert(1)</script>" := by
  have h := article_page_embeds_fields_verbatim
    [mkEntry "id2" "http://x/i.png" "<b>T</b>"
      (some "<script>alert(1)</script>")] "id2"
    (mkEntry "id2" "http://x/i.png" "<b>T</b>"
      (some "<script>alert(1)</script>"))
    (by decide) (by decide)
  exact ⟨h.1, h.2.2.1, h.2.2.2.2⟩

/-! ## ai-daily-recap `/dig/stream` retry (repository server source,
`"/dig/stream"` route, and `src/ai-daily-recap/src/ai.ts` lines 124-127)

`askAiStream` throws `HttpResponseError(status, statusText, body)` when the
upstream chat-completion response is not OK; any other exception (network
failure, malformed stream) is a plain error.  The route handler obtains the
generator and awaits its first chunk (`getGeneratorFirstChunk`); on failure
it retries exactly once when the error is an `HttpResponseError` with status
in `[500, 600)`, and otherwise answers 502. -/

/-- The exception that can escape `getGeneratorFirstChunk`. -/
inductive UpstreamFailure where
  | httpResponse (status : Nat) (statusText body : String)
  | other (message : String)
  deriving Repr, DecidableEq

/-- The retry guard of the handler:
`err instanceof HttpResponseError && err.status >= 500 && err.status < 600`. -/
def isRetryable5xx : UpstreamFailure → Bool
  | .httpResponse status _ _ => decide (500 ≤ status) && decide (status < 600)
  | .other _ => false

/-- The pre-stream control flow of the `/dig/stream` handler, lines 407-462:
`first`/`second` are the outcomes of the first and (potential) second
`getGeneratorFirstChunk()` call — `Except.ok` an obtained generator+first
chunk (after which streaming to the client starts), `Except.error` the thrown
exception.  The result pairs the number of upstream stream starts actually
performed with either the 502 status answered to the client or the
successfully obtained value. -/
def digStreamPrelude {α : Type} (first second : Except UpstreamFailure α) :
    Nat × Except Nat α :=
  match first with
  | .ok v => (1, .ok v)
  | .error err =>
    if isRetryable5xx err then
      match second with
      | .ok v => (2, .ok v)
      | .error _ => (2, .error 502)
    else (1, .error 502)

/-- Claim C9: the upstream stream is started at most twice; a second attempt
happens exactly when the first attempt fails with an `HttpResponseError`
whose status is in `[500, 600)`; a first failure of any other kind, and any
failure of the second attempt, are answered with 502 and not retried. -/
theorem digStreamPrelude_ok {α : Type} (v : α)
    (second : Except UpstreamFailure α) :
    digStreamPrelude (Except.ok v) second = (1, Except.ok v) :=
  rfl

theorem digStreamPrelude_error {α : Type} (err : UpstreamFailure)
    (second : Except UpstreamFailure α) :
    digStreamPrelude (Except.error err) second =
      (if isRetryable5xx err then
        match second with
        | Except.ok v => (2, Except.ok v)
        | Except.error _ => (2, Except.error 502)
      else (1, Except.error 502)) :=
  rfl

/-- Claim C9: the upstream stream is started at most twice; a second attempt
happens exactly when the first attempt fails with an `HttpResponseError`
whose status is in `[500, 600)`; a first failure of any other kind, and any
failure of the second attempt, are answered with 502 and not retried. -/
theorem dig_stream_retry_once {α : Type}
    (first second : Except UpstreamFailure α) :
    (digStreamPrelude first second).1 ≤ 2
    ∧ ((digStreamPrelude first second).1 = 2 ↔
        ∃ err, first = Except.error err ∧ isRetryable5xx err = true)
    ∧ (∀ v, first = Except.ok v →
        digStreamPrelude first second = (1, Except.ok v))
    ∧ (∀ err, first = Except.error err → isRetryable5xx err = false →
        digStreamPrelude first second = (1, Except.error 502))
    ∧ (∀ err v, first = Except.error err → isRetryable5xx err = true →
        second = Except.ok v → digStreamPrelude first second = (2, Except.ok v))
    ∧ (∀ err err2, first = Except.error err → isRetryable5xx err = true →
        second = Except.error err2 →
        digStreamPrelude first second = (2, Except.error 502)) := by
  cases first with
  | ok v =>
    rw [digStreamPrelude_ok]
    refine ⟨(by omega : (1 : Nat) ≤ 2), ?_, ?_, ?_, ?_, ?_⟩
    · constructor
      · intro h1
        exact absurd (show (1 : Nat) = 2 from h1) (by decide)
      · rintro ⟨err, herr, _⟩
        cases herr
    · intro v2 hv
      cases hv
      rfl
    · intro err herr
      cases herr
    · intro err v2 herr
      cases herr
    · intro err err2 herr
      cases herr
  | error err =>
    rw [digStreamPrelude_error]
    by_cases h5 : isRetryable5xx err = true
    · rw [if_pos h5]
      cases second with
      | ok v =>
        refine ⟨(by omega : (2 : Nat) ≤ 2), ?_, ?_, ?_, ?_, ?_⟩
        · exact ⟨fun _ => ⟨err, rfl, h5⟩, fun _ => rfl⟩
        · intro v2 hv
          cases hv
        · intro err2 herr h5f
          cases herr
          rw [h5f] at h5
          cases h5
        · intro err2 v2 herr _ hsec
          cases herr
          cases hsec
          rfl
        · intro err2 err3 _ _ hsec
          cases hsec
      | error err2 =>
        refine ⟨(by omega : (2 : Nat) ≤ 2), ?_, ?_, ?_, ?_, ?_⟩
        · exact ⟨fun _ => ⟨err, rfl, h5⟩, fun _ => rfl⟩
        · intro v2 hv
          cases hv
        · intro err3 herr h5f
          cases herr
          rw [h5f] at h5
          cases h5
        · intro err3 v2 _ _ hsec
          cases hsec
        · intro err3 err4 herr _ hsec
          cases herr
          cases hsec
          rfl
    · rw [if_neg h5]
      have h5f : isRetryable5xx err = false := Bool.eq_false_iff.mpr h5
      refine ⟨(by omega : (1 : Nat) ≤ 2), ?_, ?_, ?_, ?_, ?_⟩
      · constructor
        · intro h1
          exact absurd (show (1 : Nat) = 2 from h1) (by decide)
        · rintro ⟨err2, herr2, h52⟩
          cases herr2
          rw [h52] at h5f
          cases h5f
      · intro v2 hv
        cases hv
      · intro err2 herr _
        cases herr
        rfl
      · intro err2 v2 herr h52
        cases herr
        rw [h52] at h5f
        cases h5f
      · intro err2 err3 herr h52
        cases herr
        rw [h52] at h5f
        cases h5f

/-- Claim C9 witness: a first 503 failure followed by a successful second
attempt (two starts), and a first non-HTTP failure answered 502 without a
second attempt. -/
theorem dig_stream_retry_once_witness :
    digStreamPrelude (Except.error (UpstreamFailure.httpResponse 503
        "Service Unavailable" "")) (Except.ok 0) = (2, Except.ok 0)
    ∧ digStreamPrelude (Except.error (UpstreamFailure.other "network"))
        (Except.ok 0) = (1, Except.error 502) :=
  ⟨(dig_stream_retry_once (Except.error (UpstreamFailure.httpResponse 503
        "Service Unavailable" "")) (Except.ok 0)).2.2.2.2.1
      (UpstreamFailure.httpResponse 503 "Service Unavailable" "") 0 rfl
      (by decide) rfl,
   (dig_stream_retry_once (Except.error (UpstreamFailure.other "network"))
        (Except.ok (0 : Nat))).2.2.2.1
      (UpstreamFailure.other "network") rfl (by decide)⟩

end MyRss
